import Mathlib

/-
  Verification development for the `inert` attribute polyfill (src/inert.js).

  Shallow embedding notes:
  * Elements are identified by natural-number ids.  The mutable per-element
    DOM state (attributes, focus, the patched `focus` method) lives in a
    finite map `Dom` from element ids (ids absent from the map are
    untouched elements with no modelled attributes); the static document structure used by
    `composedTreeWalk` is an inductive tree `DTree` of element ids.
  * `element.matches(_focusableElementsString)` is the consumed
    focusable-element classifier (a fixed selector, spec section 6); it is
    modelled as an immutable per-element boolean `matchesFocusable`.
  * JS exceptions (`throw new Error(...)`) are modelled with
    `Except String`.  Note that the source's `element` getter (inert.js
    line 298) contains the statement `this._throwIfDestroyed;` WITHOUT an
    invocation: it evaluates the method reference and discards it, so the
    getter never throws; the embedding reproduces this faithfully.
  * JS `Map` objects are modelled as association lists with the `Map`
    insertion/replacement/deletion semantics (`aset`, `aremove`,
    `alookup`); JS `Set` objects of elements / inert roots are modelled as
    duplicate-free lists of ids in insertion order (`setAdd` / `List.erase`).
  * `InertRoot._managedElements` is a JS `Set` of `InertElement` objects;
    because the `InertManager` interns exactly one record per element, a
    record is identified here by its element id.
  * The `MutationObserver` machinery (asynchronous callbacks) is outside
    this embedding; the embedded operations are the synchronous call paths
    rooted at `InertManager.setInert`, `register` and `deregister`.
  * The mutual recursion `setInert → new InertRoot → _visitNode →
    _adoptInertRoot → setInert` is made structural with a fuel parameter;
    every recursive call consumes one unit of fuel and exhaustion is an
    explicit error, so any `.ok` result is a faithful finite run of the
    source.
-/

/-- JS `Map.prototype.set` on an association list: replace the value at
an existing key in place (keeping insertion order), else append. -/
def aset {α : Type} (m : List (Nat × α)) (k : Nat) (v : α) : List (Nat × α) :=
  match m with
  | [] => [(k, v)]
  | (k', v') :: rest =>
    if k' = k then (k, v) :: rest else (k', v') :: aset rest k v

/-- JS `Map.prototype.delete` on an association list. -/
def aremove {α : Type} (m : List (Nat × α)) (k : Nat) : List (Nat × α) :=
  match m with
  | [] => []
  | (k', v') :: rest =>
    if k' = k then aremove rest k else (k', v') :: aremove rest k

/-- JS `Map.prototype.get` on an association list. -/
def alookup {α : Type} (m : List (Nat × α)) (k : Nat) : Option α :=
  match m with
  | [] => none
  | (k', v) :: rest => if k' = k then some v else alookup rest k

/-- JS `Set.prototype.add` on a duplicate-free list: append if absent,
preserving insertion order. -/
def setAdd (l : List Nat) (a : Nat) : List Nat :=
  if a ∈ l then l else l ++ [a]

/-- Mutable DOM-visible state of a single element: the `tabindex`
attribute (parsed integer value, `none` when absent), the `inert` and
`aria-hidden` attributes, whether the element currently holds keyboard
focus, and whether its `focus` method has been overridden by the polyfill
(`element.focus = function() {}`).  `matchesFocusable` is the immutable
result of `element.matches(_focusableElementsString)`. -/
structure ElemState where
  tabindexAttr : Option Int
  inertAttr : Bool
  ariaHidden : Bool
  focused : Bool
  focusOverridden : Bool
  matchesFocusable : Bool
deriving Repr, DecidableEq

/-- The `element.tabIndex` IDL property: the parsed attribute value when
the attribute is present, else the default (`0` for elements matching the
focusable selector, `-1` otherwise). -/
def ElemState.tabIndexProp (e : ElemState) : Int :=
  match e.tabindexAttr with
  | some v => v
  | none => if e.matchesFocusable then 0 else -1

/-- Invoking `element.focus()`: the native method gives the element
keyboard focus; after the polyfill's override (`element.focus =
function() {}`) the call is a no-op. -/
def ElemState.callFocus (e : ElemState) : ElemState :=
  if e.focusOverridden then e else { e with focused := true }

/-- Invoking `element.blur()`: removes keyboard focus. -/
def ElemState.blur (e : ElemState) : ElemState :=
  { e with focused := false }

/-- The static composed document tree walked by `composedTreeWalk`:
an element id together with its child subtrees, in document order. -/
inductive DTree where
  | node (id : Nat) (children : List DTree)
deriving Repr

/-- Root id of a subtree. -/
def DTree.rootId : DTree → Nat
  | .node i _ => i

/-- The whole-document element-state map, keyed by element id.  An
element not present in the map is an untouched element with no modelled
attributes (`defaultElem`). -/
abbrev Dom : Type := List (Nat × ElemState)

/-- State of an element never touched by the polyfill and carrying none
of the modelled attributes. -/
def defaultElem : ElemState :=
  { tabindexAttr := none, inertAttr := false, ariaHidden := false,
    focused := false, focusOverridden := false, matchesFocusable := false }

/-- Read one element's state. -/
def domGet (d : Dom) (i : Nat) : ElemState :=
  (alookup d i).getD defaultElem

/-- Point update of the element-state map (one element's attributes
changed). -/
def setElem (d : Dom) (i : Nat) (e : ElemState) : Dom :=
  aset d i e

/-- `InertElement` (inert.js lines 231-354): per-element record.  `el` is
`_element` (`none` once `delete this._element` has run in the
destructor); `inertRoots` is the set `_inertRoots` of claiming inert
roots, by root-element id; `savedTabIndex` is `_savedTabIndex`, which is
absent (`none`) until first assigned — `hasSavedTabIndex` is
`'_savedTabIndex' in this`. -/
structure InertElement where
  el : Option Nat
  overrodeFocusMethod : Bool
  inertRoots : List Nat
  destroyed : Bool
  savedTabIndex : Option Int
deriving Repr, DecidableEq

namespace InertElement

/-- `get hasSavedTabIndex` (line 292): presence test, never throws. -/
def hasSavedTabIndex (r : InertElement) : Bool :=
  r.savedTabIndex.isSome

/-- `_throwIfDestroyed` (lines 286-289). -/
def throwIfDestroyed (r : InertElement) : Except String Unit :=
  if r.destroyed then .error "Trying to access destroyed InertElement"
  else .ok ()

/-- `get destroyed` (lines 282-284): plain field read, never throws. -/
def destroyedGet (r : InertElement) : Except String Bool :=
  .ok r.destroyed

/-- `get hasSavedTabIndex` exposed with the same error-signalling type as
the other accessors; the source getter contains no destroyed check. -/
def hasSavedTabIndexGet (r : InertElement) : Except String Bool :=
  .ok r.hasSavedTabIndex

/-- `get element` (lines 297-300).  The source reads
`this._throwIfDestroyed;` — a bare property reference, not a call — so
no exception is ever raised and the (possibly deleted) `_element` is
returned. -/
def elementGet (r : InertElement) : Except String (Option Nat) :=
  .ok r.el

/-- `get savedTabIndex` (lines 309-312): throws when destroyed, else
returns `_savedTabIndex` (possibly undefined). -/
def savedTabIndexGet (r : InertElement) : Except String (Option Int) :=
  match r.throwIfDestroyed with
  | .error e => .error e
  | .ok _ => .ok r.savedTabIndex

/-- `set savedTabIndex` (lines 303-306): throws when destroyed, else
assigns `_savedTabIndex`. -/
def savedTabIndexSet (r : InertElement) (v : Int) : Except String InertElement :=
  match r.throwIfDestroyed with
  | .error e => .error e
  | .ok _ => .ok { r with savedTabIndex := some v }

/-- `ensureUntabbable` (lines 315-331).  Reads the element through the
(non-throwing) `element` getter; a destroyed record therefore reaches
`undefined.blur()`, a TypeError, modelled as an error result. -/
def ensureUntabbable (r : InertElement) (d : Dom) :
    Except String (InertElement × Dom) :=
  match r.el with
  | none => .error "TypeError: cannot read properties of undefined"
  | some i =>
    let e := (domGet d i).blur
    let d := setElem d i e
    if e.matchesFocusable then
      if e.tabIndexProp = -1 ∧ r.hasSavedTabIndex then
        .ok (r, d)
      else
        let r := if e.tabindexAttr.isSome
          then { r with savedTabIndex := some e.tabIndexProp }
          else r
        let e := { e with tabindexAttr := some (-1), focusOverridden := true }
        .ok ({ r with overrodeFocusMethod := true }, setElem d i e)
    else
      if e.tabindexAttr.isSome then
        .ok ({ r with savedTabIndex := some e.tabIndexProp },
             setElem d i { e with tabindexAttr := none })
      else
        .ok (r, d)

/-- The field initialisation part of the `InertElement` constructor
(lines 236-251): element reference, no focus override yet, the initial
root as sole claimant, not destroyed, no saved tabindex. -/
def mkRecord (elId rootId : Nat) : InertElement :=
  { el := some elId
    overrodeFocusMethod := false
    inertRoots := [rootId]
    destroyed := false
    savedTabIndex := none }

/-- The full `InertElement` constructor (lines 236-254): field
initialisation followed by `this.ensureUntabbable()`. -/
def construct (elId rootId : Nat) (d : Dom) :
    Except String (InertElement × Dom) :=
  (mkRecord elId rootId).ensureUntabbable d

/-- `destructor` (lines 260-276): throws if already destroyed; otherwise
restores the saved tabindex attribute (or removes the attribute when none
was saved), removes the `focus` override when one was installed, deletes
`_element` and `_inertRoots`, and marks the record destroyed. -/
def destructor (r : InertElement) (d : Dom) :
    Except String (InertElement × Dom) :=
  match r.throwIfDestroyed with
  | .error e => .error e
  | .ok _ =>
    match r.el with
    | some i =>
      let e := domGet d i
      let e := match r.savedTabIndex with
        | some v => { e with tabindexAttr := some v }
        | none => { e with tabindexAttr := none }
      let e := if r.overrodeFocusMethod then { e with focusOverridden := false } else e
      .ok ({ r with el := none, inertRoots := [], destroyed := true },
           setElem d i e)
    | none =>
      .ok ({ r with el := none, inertRoots := [], destroyed := true }, d)

/-- `addInertRoot` (lines 337-340): throws if destroyed, else adds the
root to the claimant set. -/
def addInertRoot (r : InertElement) (rootId : Nat) : Except String InertElement :=
  match r.throwIfDestroyed with
  | .error e => .error e
  | .ok _ => .ok { r with inertRoots := setAdd r.inertRoots rootId }

/-- `removeInertRoot` (lines 348-353): throws if destroyed, else removes
the root from the claimant set and runs the destructor when the set
becomes empty. -/
def removeInertRoot (r : InertElement) (d : Dom) (rootId : Nat) :
    Except String (InertElement × Dom) :=
  match r.throwIfDestroyed with
  | .error e => .error e
  | .ok _ =>
    let r := { r with inertRoots := r.inertRoots.erase rootId }
    if r.inertRoots = [] then r.destructor d else .ok (r, d)

end InertElement

/-- `InertRoot` (inert.js lines 49-215): `rootElement` is `_rootElement`
(`none` after `delete this._rootElement`); `managedElements` is the set
`_managedElements` of managed `InertElement`s, identified by element id
(one record per element, interned by the manager). -/
structure InertRoot where
  rootElement : Option Nat
  managedElements : List Nat
deriving Repr, DecidableEq

/-- `InertManager` (lines 365-508): the root registry `_inertRoots`
(root element id → `InertRoot`) and the element registry
`_managedElements` (element id → `InertElement`). -/
structure InertManager where
  inertRoots : List (Nat × InertRoot)
  managedElements : List (Nat × InertElement)
deriving Repr, DecidableEq

/-- Combined mutable state: the document's element states plus the
per-document manager singleton. -/
structure St where
  dom : Dom
  mgr : InertManager
deriving Repr, DecidableEq

/-- `InertManager.register` (lines 439-452): if a record for the element
exists, add the root as a claimant and re-run `ensureUntabbable`;
otherwise construct a fresh record.  In both cases the record is stored
under the element's key and returned. -/
def InertManager.register (s : St) (elId rootId : Nat) :
    Except String (InertElement × St) :=
  match alookup s.mgr.managedElements elId with
  | some inertElement =>
    match inertElement.addInertRoot rootId with
    | .error e => .error e
    | .ok r1 =>
      match r1.ensureUntabbable s.dom with
      | .error e => .error e
      | .ok (r2, d2) =>
        .ok (r2, ⟨d2, { s.mgr with
          managedElements := aset s.mgr.managedElements elId r2 }⟩)
  | none =>
    match InertElement.construct elId rootId s.dom with
    | .error e => .error e
    | .ok (r2, d2) =>
      .ok (r2, ⟨d2, { s.mgr with
        managedElements := aset s.mgr.managedElements elId r2 }⟩)

/-- `InertManager.deregister` (lines 466-476): returns `none` and leaves
the state unchanged when the element has no record; otherwise removes the
root from the record's claimant set (possibly destroying the record),
drops the record from the element registry exactly when it is now
destroyed, and returns the (mutated) record. -/
def InertManager.deregister (s : St) (elId rootId : Nat) :
    Except String (Option InertElement × St) :=
  match alookup s.mgr.managedElements elId with
  | none => .ok (none, s)
  | some inertElement =>
    match inertElement.removeInertRoot s.dom rootId with
    | .error e => .error e
    | .ok (r1, d1) =>
      let m1 := aset s.mgr.managedElements elId r1
      let m2 := if r1.destroyed then aremove m1 elId else m1
      .ok (some r1, ⟨d1, { s.mgr with managedElements := m2 }⟩)

/-- `InertRoot._unmanageNode` (lines 145-152) applied to the element of a
managed record: deregister it and, when a record was returned, delete it
from this root's managed set. -/
def InertRoot.unmanageNode (rootId : Nat) (rt : InertRoot) (s : St)
    (elId : Nat) : Except String (InertRoot × St) :=
  match InertManager.deregister s elId rootId with
  | .error e => .error e
  | .ok (none, s') => .ok (rt, s')
  | .ok (some _, s') =>
    .ok ({ rt with managedElements := rt.managedElements.erase elId }, s')

/-- The loop body of `InertRoot.destructor` (lines 94-95): unmanage every
record in the managed set, in iteration order.  (The source passes each
record's `element` — read through the non-throwing getter — to
`_unmanageNode`; by interning, that element is exactly the id under
which the record is managed here.) -/
def InertRoot.unmanageAll (rootId : Nat) (rt : InertRoot) (s : St) :
    List Nat → Except String (InertRoot × St)
  | [] => .ok (rt, s)
  | elId :: rest =>
    match InertRoot.unmanageNode rootId rt s elId with
    | .error e => .error e
    | .ok (rt', s') => InertRoot.unmanageAll rootId rt' s' rest

/-- `InertRoot.destructor` (lines 86-100): remove `aria-hidden` from the
root element (when still referenced), then unmanage every managed
record.  The observer disconnect has no modelled effect. -/
def InertRoot.destructorOp (rootId : Nat) (rt : InertRoot) (s : St) :
    Except String St :=
  let s1 : St :=
    match rt.rootElement with
    | some i => ⟨setElem s.dom i { domGet s.dom i with ariaHidden := false }, s.mgr⟩
    | none => s
  match InertRoot.unmanageAll rootId rt s1 rt.managedElements with
  | .error e => .error e
  | .ok (_, s2) => .ok s2

/-- `InertRoot._manageElement` (lines 136-139): register the element with
the manager and add the resulting record to this root's managed set. -/
def InertRoot.manageElement (rootId : Nat) (rt : InertRoot) (s : St)
    (elId : Nat) : Except String (InertRoot × St) :=
  match InertManager.register s elId rootId with
  | .error e => .error e
  | .ok (_, s') =>
    .ok ({ rt with managedElements := setAdd rt.managedElements elId }, s')

/-- The loop of `InertRoot._adoptInertRoot` (lines 176-177): for each
record managed by the sub-root, read its element through the `element`
getter and manage it.  A dangling id (no interned record) cannot arise on
the modelled call paths; it is rendered as an error, as is a destroyed
record (whose `element` getter yields `undefined`, making the subsequent
registration throw a TypeError in `ensureUntabbable`). -/
def InertRoot.manageSavedList (rootId : Nat) (rt : InertRoot) (s : St) :
    List Nat → Except String (InertRoot × St)
  | [] => .ok (rt, s)
  | i :: rest =>
    match alookup s.mgr.managedElements i with
    | none => .error "TypeError: cannot read properties of undefined"
    | some rec =>
      match rec.el with
      | none => .error "TypeError: cannot read properties of undefined"
      | some elId =>
        match InertRoot.manageElement rootId rt s elId with
        | .error e => .error e
        | .ok (rt', s') => InertRoot.manageSavedList rootId rt' s' rest


/-- `InertRoot._adoptInertRoot` (lines 166-178), parameterized by the
manager's `setInert` entry point (the call `this._inertManager.setInert(
element, true)` on line 172): if the descendant inert root has not been
registered with the manager yet, activate it first; then manage every
element of its managed set. -/
def InertRoot.adoptInertRootGen (setInertCb : St → DTree → Except String St)
    (rootId : Nat) (rt : InertRoot) (s : St) (t : DTree) :
    Except String (InertRoot × St) :=
  let activated : Except String St :=
    if (alookup s.mgr.inertRoots t.rootId).isNone then setInertCb s t
    else .ok s
  match activated with
  | .error e => .error e
  | .ok s' =>
    match alookup s'.mgr.inertRoots t.rootId with
    | none => .error "TypeError: cannot read properties of undefined"
    | some sub => InertRoot.manageSavedList rootId rt s' sub.managedElements

/-- `InertRoot._visitNode` (lines 119-130): a non-root node carrying the
`inert` attribute is adopted as a sub-root; afterwards any node matching
the focusable selector or carrying a `tabindex` attribute is managed.
(All modelled nodes are element nodes.)  The second check reads the
state as left by the adoption. -/
def InertRoot.visitNodeGen (setInertCb : St → DTree → Except String St)
    (rootId : Nat) (rt : InertRoot) (s : St) (t : DTree) :
    Except String (InertRoot × St) :=
  let step1 : Except String (InertRoot × St) :=
    if t.rootId ≠ rootId ∧ (domGet s.dom t.rootId).inertAttr then
      InertRoot.adoptInertRootGen setInertCb rootId rt s t
    else .ok (rt, s)
  match step1 with
  | .error e => .error e
  | .ok (rt', s') =>
    if (domGet s'.dom t.rootId).matchesFocusable ∨ (domGet s'.dom t.rootId).tabindexAttr.isSome then
      InertRoot.manageElement rootId rt' s' t.rootId
    else .ok (rt', s')

mutual

/-- `composedTreeWalk` as used by `_makeSubtreeUnfocusable` (lines
112-114, 517-556): visit the node, then its children in document order.
(The embedding's `DTree` is the composed tree, so shadow-root and
`<content>` redistribution indirections are already resolved.) -/
def InertRoot.walkTreeGen (setInertCb : St → DTree → Except String St)
    (rootId : Nat) : InertRoot → St → DTree → Except String (InertRoot × St)
  | rt, s, .node i children =>
    match InertRoot.visitNodeGen setInertCb rootId rt s (.node i children) with
    | .error e => .error e
    | .ok (rt', s') => InertRoot.walkListGen setInertCb rootId rt' s' children
termination_by structural _ _ t => t

/-- Walking a list of child subtrees in document order. -/
def InertRoot.walkListGen (setInertCb : St → DTree → Except String St)
    (rootId : Nat) : InertRoot → St → List DTree → Except String (InertRoot × St)
  | rt, s, [] => .ok (rt, s)
  | rt, s, t :: rest =>
    match InertRoot.walkTreeGen setInertCb rootId rt s t with
    | .error e => .error e
    | .ok (rt', s') => InertRoot.walkListGen setInertCb rootId rt' s' rest
termination_by structural _ _ ts => ts

end

/-- `InertManager.setInert` (inert.js lines 403-420).  Activation: no-op
if the root is already registered; otherwise `new InertRoot(root, this)`
(aria-hidden on the root, then the subtree walk), then
`setAttribute('inert')` and registration in the root map.  Deactivation:
no-op if not registered; otherwise the root's destructor, removal from
the map and removal of the `inert` attribute.  The first argument is
fuel for the `_adoptInertRoot → setInert` recursion (one unit per
nesting level of newly discovered inert sub-roots); exhaustion is an
explicit error, so every `.ok` result is a faithful finite run of the
source. -/
def InertManager.setInert : Nat → St → DTree → Bool → Except String St
  | 0, _, _, _ => .error "out of fuel"
  | fuel + 1, s, t, inert =>
    if inert then
      if (alookup s.mgr.inertRoots t.rootId).isSome then .ok s
      else
        let s1 : St :=
          ⟨setElem s.dom t.rootId { domGet s.dom t.rootId with ariaHidden := true }, s.mgr⟩
        match InertRoot.walkTreeGen
            (fun s' t' => InertManager.setInert fuel s' t' true)
            t.rootId ⟨some t.rootId, []⟩ s1 t with
        | .error e => .error e
        | .ok (rt, s2) =>
          let s3 : St :=
            ⟨setElem s2.dom t.rootId { domGet s2.dom t.rootId with inertAttr := true }, s2.mgr⟩
          .ok ⟨s3.dom, { s3.mgr with inertRoots := aset s3.mgr.inertRoots t.rootId rt }⟩
    else
      match alookup s.mgr.inertRoots t.rootId with
      | none => .ok s
      | some rt =>
        match InertRoot.destructorOp t.rootId rt s with
        | .error e => .error e
        | .ok s1 =>
          let m1 := { s1.mgr with inertRoots := aremove s1.mgr.inertRoots t.rootId }
          .ok ⟨setElem s1.dom t.rootId { domGet s1.dom t.rootId with inertAttr := false }, m1⟩
termination_by structural fuel _ _ _ => fuel

/-! ### Association-list and element-map lemmas -/

theorem alookup_aset_self {α : Type} (m : List (Nat × α)) (k : Nat) (v : α) :
    alookup (aset m k v) k = some v := by
  induction m with
  | nil => simp [aset, alookup]
  | cons p rest ih =>
    obtain ⟨k', v'⟩ := p
    by_cases h : k' = k
    · simp [aset, h, alookup]
    · simp [aset, h, alookup, ih]

theorem alookup_aset_ne {α : Type} (m : List (Nat × α)) (k j : Nat) (v : α)
    (hne : j ≠ k) : alookup (aset m k v) j = alookup m j := by
  have hkj : ¬(k = j) := fun h => hne h.symm
  induction m with
  | nil => simp [aset, alookup, hkj]
  | cons p rest ih =>
    obtain ⟨k', v'⟩ := p
    by_cases h : k' = k
    · subst h
      simp [aset, alookup, hkj]
    · simp only [aset, h, if_false]
      by_cases h2 : k' = j
      · simp [alookup, h2]
      · simp [alookup, h2, ih]

theorem alookup_aremove_self {α : Type} (m : List (Nat × α)) (k : Nat) :
    alookup (aremove m k) k = none := by
  induction m with
  | nil => simp [aremove, alookup]
  | cons p rest ih =>
    obtain ⟨k', v'⟩ := p
    by_cases h : k' = k
    · simp [aremove, h, ih]
    · simp [aremove, h, alookup, ih]

theorem alookup_aremove_ne {α : Type} (m : List (Nat × α)) (k j : Nat)
    (hne : j ≠ k) : alookup (aremove m k) j = alookup m j := by
  induction m with
  | nil => simp [aremove]
  | cons p rest ih =>
    obtain ⟨k', v'⟩ := p
    by_cases h : k' = k
    · have hkj : ¬(k = j) := fun hh => hne hh.symm
      simp [aremove, h, alookup, hkj, ih]
    · simp only [aremove, h, if_false, alookup]
      by_cases h2 : k' = j
      · simp [h2]
      · simp [h2, ih]

/-- The keys of an association list are pairwise distinct (the JS `Map`
representation invariant). -/
def KeysNodup {α : Type} (m : List (Nat × α)) : Prop :=
  (m.map Prod.fst).Nodup

theorem keysNodup_nil {α : Type} : KeysNodup ([] : List (Nat × α)) := by
  simp [KeysNodup]

theorem aset_keys {α : Type} (m : List (Nat × α)) (k : Nat) (v : α) :
    (aset m k v).map Prod.fst =
      if k ∈ m.map Prod.fst then m.map Prod.fst
      else m.map Prod.fst ++ [k] := by
  induction m with
  | nil => simp [aset]
  | cons p rest ih =>
    obtain ⟨k', v'⟩ := p
    by_cases h : k' = k
    · simp [aset, h]
    · have hne : ¬(k = k') := fun hh => h hh.symm
      by_cases hmem : k ∈ rest.map Prod.fst
      · simp [aset, h, ih, hmem, hne]
      · simp [aset, h, ih, hmem, hne]

theorem aremove_keys_subset {α : Type} (m : List (Nat × α)) (k : Nat) :
    (aremove m k).map Prod.fst ⊆ m.map Prod.fst := by
  induction m with
  | nil => simp [aremove]
  | cons p rest ih =>
    obtain ⟨k', v'⟩ := p
    by_cases h : k' = k
    · simp only [aremove, h, if_true, List.map_cons]
      exact List.Subset.trans ih (List.subset_cons_self _ _)
    · simp only [aremove, h, if_false, List.map_cons]
      exact List.cons_subset_cons _ ih

theorem keysNodup_aset {α : Type} (m : List (Nat × α)) (k : Nat) (v : α)
    (h : KeysNodup m) : KeysNodup (aset m k v) := by
  unfold KeysNodup at *
  rw [aset_keys]
  by_cases hmem : k ∈ m.map Prod.fst
  · simpa [hmem] using h
  · simp only [hmem, if_false]
    rw [List.nodup_append]
    refine ⟨h, List.nodup_singleton _, ?_⟩
    intro a ha hb
    simp only [List.mem_singleton] at hb
    subst hb
    exact hmem ha

theorem keysNodup_aremove {α : Type} (m : List (Nat × α)) (k : Nat)
    (h : KeysNodup m) : KeysNodup (aremove m k) := by
  unfold KeysNodup at *
  induction m with
  | nil => simp [aremove]
  | cons p rest ih =>
    obtain ⟨k', v'⟩ := p
    simp only [List.map_cons, List.nodup_cons] at h
    by_cases hk : k' = k
    · simp only [aremove, hk, if_true]
      exact ih h.2
    · simp only [aremove, hk, if_false, List.map_cons, List.nodup_cons]
      exact ⟨fun hcon => h.1 (aremove_keys_subset rest k hcon), ih h.2⟩

theorem domGet_setElem_self (d : Dom) (i : Nat) (e : ElemState) :
    domGet (setElem d i e) i = e := by
  simp [domGet, setElem, alookup_aset_self]

theorem domGet_setElem_ne (d : Dom) (i j : Nat) (e : ElemState) (h : j ≠ i) :
    domGet (setElem d i e) j = domGet d j := by
  simp [domGet, setElem, alookup_aset_ne _ _ _ _ h]

/-! ### Record-operation lemmas -/

theorem setAdd_ne_nil (a : Nat) (l : List Nat) : setAdd l a ≠ [] := by
  unfold setAdd
  by_cases h : a ∈ l
  · rw [if_pos h]
    intro hc
    subst hc
    simp at h
  · rw [if_neg h]
    simp

/-- `ensureUntabbable` never changes the element reference, the destroyed
flag or the claimant set of the record. -/
theorem ensureUntabbable_ok_fields (r : InertElement) (d : Dom)
    (r' : InertElement) (d' : Dom)
    (h : r.ensureUntabbable d = .ok (r', d')) :
    r'.el = r.el ∧ r'.destroyed = r.destroyed ∧
    r'.inertRoots = r.inertRoots ∧ r'.overrodeFocusMethod ≥ r.overrodeFocusMethod := by
  unfold InertElement.ensureUntabbable at h
  cases hel : r.el with
  | none =>
    rw [hel] at h
    simp at h
  | some i =>
    rw [hel] at h
    simp only at h
    split_ifs at h with h1 h2 h3 <;>
      (simp only [Except.ok.injEq, Prod.mk.injEq] at h
       obtain ⟨hr, hd⟩ := h
       subst hr
       simp [hel, le_refl])

/-- `ensureUntabbable` starts with `element.blur()`, so on success the
element never retains keyboard focus. -/
theorem ensureUntabbable_ok_blurred (r : InertElement) (d : Dom) (i : Nat)
    (r' : InertElement) (d' : Dom) (hel : r.el = some i)
    (h : r.ensureUntabbable d = .ok (r', d')) :
    (domGet d' i).focused = false := by
  unfold InertElement.ensureUntabbable at h
  rw [hel] at h
  simp only at h
  split_ifs at h with h1 h2 h3 <;>
    (simp only [Except.ok.injEq, Prod.mk.injEq] at h
     obtain ⟨hr, hd⟩ := h
     subst hd) <;>
    simp [domGet_setElem_self, ElemState.blur]

/-- Manager element-registry invariant (spec section 3): keys are unique
(at most one Inert Element Record per element), and every interned record
is alive, is claimed by at least one inert root, and references the
element it is interned under. -/
def MgrInv (m : InertManager) : Prop :=
  KeysNodup m.managedElements ∧
  ∀ elId rec, alookup m.managedElements elId = some rec →
    rec.destroyed = false ∧ rec.inertRoots ≠ [] ∧ rec.el = some elId

/-- Full characterisation of `InertManager.register` on a state whose
element registry satisfies the invariant: it succeeds, interns the
returned record under the element's key, leaves every other key
untouched, leaves the root registry and the invariant intact, returns a
live record claiming at least one root, and leaves the element without
keyboard focus.  When a record already existed, the returned record is
that record with the root added to its claimant set (no second record is
constructed). -/
theorem register_spec (s : St) (elId rootId : Nat) (hI : MgrInv s.mgr) :
    ∃ rec' s', InertManager.register s elId rootId = .ok (rec', s') ∧
      MgrInv s'.mgr ∧
      alookup s'.mgr.managedElements elId = some rec' ∧
      (∀ j, j ≠ elId → alookup s'.mgr.managedElements j =
        alookup s.mgr.managedElements j) ∧
      s'.mgr.inertRoots = s.mgr.inertRoots ∧
      rec'.el = some elId ∧ rec'.destroyed = false ∧ rec'.inertRoots ≠ [] ∧
      (domGet s'.dom elId).focused = false ∧
      (∀ rec, alookup s.mgr.managedElements elId = some rec →
        rec'.inertRoots = setAdd rec.inertRoots rootId) ∧
      (alookup s.mgr.managedElements elId = none →
        rec'.inertRoots = [rootId]) := by
  obtain ⟨hnd, hprops⟩ := hI
  unfold InertManager.register
  cases hlk : alookup s.mgr.managedElements elId with
  | some rec =>
    obtain ⟨hdes, hroots, hel⟩ := hprops elId rec hlk
    have hadd : rec.addInertRoot rootId =
        .ok { rec with inertRoots := setAdd rec.inertRoots rootId } := by
      unfold InertElement.addInertRoot InertElement.throwIfDestroyed
      rw [hdes]
      simp
    dsimp only
    rw [hadd]
    dsimp only
    have hel1 : ({ rec with inertRoots := setAdd rec.inertRoots rootId } :
        InertElement).el = some elId := hel
    cases hens : ({ rec with inertRoots := setAdd rec.inertRoots rootId } :
        InertElement).ensureUntabbable s.dom with
    | error e =>
      exfalso
      unfold InertElement.ensureUntabbable at hens
      rw [hel1] at hens
      simp only at hens
      split_ifs at hens
    | ok p =>
      obtain ⟨r2, d2⟩ := p
      obtain ⟨hf1, hf2, hf3, _⟩ := ensureUntabbable_ok_fields _ s.dom r2 d2 hens
      refine ⟨r2, _, rfl, ?_, ?_, ?_, rfl, ?_, ?_, ?_, ?_, ?_, ?_⟩
      · constructor
        · exact keysNodup_aset _ _ _ hnd
        · intro j rj hj
          by_cases hje : j = elId
          · subst hje
            rw [alookup_aset_self] at hj
            cases hj
            refine ⟨hf2.trans hdes, ?_, hf1.trans hel⟩
            rw [hf3]
            exact setAdd_ne_nil rootId rec.inertRoots
          · rw [alookup_aset_ne _ _ _ _ hje] at hj
            exact hprops j rj hj
      · exact alookup_aset_self _ _ _
      · intro j hj
        exact alookup_aset_ne _ _ _ _ hj
      · exact hf1.trans hel
      · exact hf2.trans hdes
      · rw [hf3]
        exact setAdd_ne_nil rootId rec.inertRoots
      · exact ensureUntabbable_ok_blurred _ s.dom elId r2 d2 hel1 hens
      · intro rec0 hrec0
        cases hrec0
        exact hf3
      · intro hcon
        cases hcon
  | none =>
    have hel1 : (InertElement.mkRecord elId rootId).el = some elId := rfl
    dsimp only
    cases hens : InertElement.construct elId rootId s.dom with
    | error e =>
      exfalso
      unfold InertElement.construct InertElement.ensureUntabbable at hens
      rw [hel1] at hens
      simp only at hens
      split_ifs at hens
    | ok p =>
      obtain ⟨r2, d2⟩ := p
      obtain ⟨hf1, hf2, hf3, _⟩ :=
        ensureUntabbable_ok_fields (InertElement.mkRecord elId rootId) s.dom r2 d2 hens
      refine ⟨r2, _, rfl, ?_, ?_, ?_, rfl, ?_, ?_, ?_, ?_, ?_, ?_⟩
      · constructor
        · exact keysNodup_aset _ _ _ hnd
        · intro j rj hj
          by_cases hje : j = elId
          · subst hje
            rw [alookup_aset_self] at hj
            cases hj
            refine ⟨hf2, ?_, hf1⟩
            rw [hf3]
            simp [InertElement.mkRecord]
          · rw [alookup_aset_ne _ _ _ _ hje] at hj
            exact hprops j rj hj
      · exact alookup_aset_self _ _ _
      · intro j hj
        exact alookup_aset_ne _ _ _ _ hj
      · exact hf1
      · exact hf2
      · rw [hf3]
        simp [InertElement.mkRecord]
      · exact ensureUntabbable_ok_blurred _ s.dom elId r2 d2 hel1 hens
      · intro rec0 hrec0
        cases hrec0
      · intro _
        rw [hf3]
        simp [InertElement.mkRecord]

/-- `InertElement.removeInertRoot` on a live record: computed result in
both the last-claimant (destruction) and remaining-claimant cases. -/
theorem removeInertRoot_spec (r : InertElement) (d : Dom) (rootId i : Nat)
    (hdes : r.destroyed = false) (hel : r.el = some i) :
    ∃ r' d', r.removeInertRoot d rootId = .ok (r', d') ∧
      r'.inertRoots = r.inertRoots.erase rootId ∧
      (r'.destroyed = true ↔ r.inertRoots.erase rootId = []) ∧
      (r.inertRoots.erase rootId ≠ [] →
        r'.destroyed = false ∧ r'.el = some i ∧ d' = d) := by
  unfold InertElement.removeInertRoot InertElement.throwIfDestroyed
  rw [hdes]
  simp only [Bool.false_eq_true, if_false]
  by_cases hnil : r.inertRoots.erase rootId = []
  · rw [if_pos hnil]
    unfold InertElement.destructor InertElement.throwIfDestroyed
    dsimp only
    simp only [Bool.false_eq_true, if_false]
    rw [hel]
    refine ⟨_, _, rfl, by simp [hnil], by simp [hnil], fun hc => absurd hnil hc⟩
  · rw [if_neg hnil]
    exact ⟨_, _, rfl, rfl, by simp [hnil], fun _ => ⟨rfl, hel, rfl⟩⟩

/-- Full characterisation of `InertManager.deregister` on a state whose
element registry satisfies the invariant: without a record it is a no-op
returning nothing; with a record it removes the given root from the
claimant set, drops the record from the registry exactly when the record
became destroyed, returns the record in both cases, and preserves the
invariant. -/
theorem deregister_spec (s : St) (elId rootId : Nat) (hI : MgrInv s.mgr) :
    (alookup s.mgr.managedElements elId = none →
      InertManager.deregister s elId rootId = .ok (none, s)) ∧
    (∀ rec, alookup s.mgr.managedElements elId = some rec →
      ∃ rec' s', InertManager.deregister s elId rootId = .ok (some rec', s') ∧
        rec'.inertRoots = rec.inertRoots.erase rootId ∧
        (rec'.destroyed = true ↔ rec.inertRoots.erase rootId = []) ∧
        alookup s'.mgr.managedElements elId =
          (if rec'.destroyed then none else some rec') ∧
        (∀ j, j ≠ elId → alookup s'.mgr.managedElements j =
          alookup s.mgr.managedElements j) ∧
        MgrInv s'.mgr ∧ s'.mgr.inertRoots = s.mgr.inertRoots) := by
  obtain ⟨hnd, hprops⟩ := hI
  constructor
  · intro hnone
    unfold InertManager.deregister
    rw [hnone]
  · intro rec hlk
    obtain ⟨hdes, hroots, hel⟩ := hprops elId rec hlk
    obtain ⟨r', d', hrm, hr1, hr2, hr3⟩ :=
      removeInertRoot_spec rec s.dom rootId elId hdes hel
    unfold InertManager.deregister
    rw [hlk]
    dsimp only
    rw [hrm]
    dsimp only
    refine ⟨r', _, rfl, hr1, hr2, ?_, ?_, ?_, rfl⟩
    · by_cases hd : r'.destroyed
      · rw [if_pos hd]
        simp only [hd, if_true]
        exact alookup_aremove_self _ _
      · rw [if_neg hd]
        simp only [hd, Bool.false_eq_true, if_false]
        exact alookup_aset_self _ _ _
    · intro j hj
      by_cases hd : r'.destroyed
      · simp only [hd, if_true]
        rw [alookup_aremove_ne _ _ _ hj, alookup_aset_ne _ _ _ _ hj]
      · simp only [hd, Bool.false_eq_true, if_false]
        rw [alookup_aset_ne _ _ _ _ hj]
    · constructor
      · by_cases hd : r'.destroyed
        · simp only [hd, if_true]
          exact keysNodup_aremove _ _ (keysNodup_aset _ _ _ hnd)
        · simp only [hd, if_false]
          exact keysNodup_aset _ _ _ hnd
      · intro j rj hj
        by_cases hd : r'.destroyed
        · simp only [hd, if_true] at hj
          by_cases hje : j = elId
          · subst hje
            rw [alookup_aremove_self] at hj
            cases hj
          · rw [alookup_aremove_ne _ _ _ hje, alookup_aset_ne _ _ _ _ hje] at hj
            exact hprops j rj hj
        · simp only [hd, Bool.false_eq_true, if_false] at hj
          by_cases hje : j = elId
          · subst hje
            rw [alookup_aset_self] at hj
            cases hj
            have hne : rec.inertRoots.erase rootId ≠ [] := by
              intro hcon
              exact hd (hr2.mpr hcon)
            obtain ⟨hd1, hd2, _⟩ := hr3 hne
            refine ⟨hd1, ?_, hd2⟩
            rw [hr1]
            exact hne
          · rw [alookup_aset_ne _ _ _ _ hje] at hj
            exact hprops j rj hj

/-- `_unmanageNode` preserves the element-registry invariant and never
fails on an invariant state. -/
theorem unmanageNode_inv (rootId : Nat) (rt : InertRoot) (s : St) (elId : Nat)
    (hI : MgrInv s.mgr) :
    ∃ rt' s', InertRoot.unmanageNode rootId rt s elId = .ok (rt', s') ∧
      MgrInv s'.mgr ∧ s'.mgr.inertRoots = s.mgr.inertRoots := by
  obtain ⟨h1, h2⟩ := deregister_spec s elId rootId hI
  unfold InertRoot.unmanageNode
  cases hlk : alookup s.mgr.managedElements elId with
  | none =>
    rw [h1 hlk]
    exact ⟨rt, s, rfl, hI, rfl⟩
  | some rec =>
    obtain ⟨rec', s', hdr, _, _, _, _, hI', hroots⟩ := h2 rec hlk
    rw [hdr]
    exact ⟨_, s', rfl, hI', hroots⟩

/-- The destructor's unmanage loop preserves the element-registry
invariant and never fails on an invariant state. -/
theorem unmanageAll_inv (rootId : Nat) (ids : List Nat) :
    ∀ (rt : InertRoot) (s : St), MgrInv s.mgr →
    ∃ rt' s', InertRoot.unmanageAll rootId rt s ids = .ok (rt', s') ∧
      MgrInv s'.mgr ∧ s'.mgr.inertRoots = s.mgr.inertRoots := by
  induction ids with
  | nil =>
    intro rt s hI
    exact ⟨rt, s, rfl, hI, rfl⟩
  | cons i rest ih =>
    intro rt s hI
    obtain ⟨rt1, s1, hn, hI1, hr1⟩ := unmanageNode_inv rootId rt s i hI
    obtain ⟨rt2, s2, hrest, hI2, hr2⟩ := ih rt1 s1 hI1
    refine ⟨rt2, s2, ?_, hI2, hr2.trans hr1⟩
    unfold InertRoot.unmanageAll
    rw [hn]
    exact hrest

/-- `InertRoot.destructor` preserves the element-registry invariant and
never fails on an invariant state. -/
theorem destructorOp_inv (rootId : Nat) (rt : InertRoot) (s : St)
    (hI : MgrInv s.mgr) :
    ∃ s', InertRoot.destructorOp rootId rt s = .ok s' ∧
      MgrInv s'.mgr ∧ s'.mgr.inertRoots = s.mgr.inertRoots := by
  unfold InertRoot.destructorOp
  cases hre : rt.rootElement with
  | none =>
    dsimp only
    obtain ⟨rt', s', hall, hI', hr⟩ := unmanageAll_inv rootId rt.managedElements rt s hI
    rw [hall]
    exact ⟨s', rfl, hI', hr⟩
  | some i =>
    dsimp only
    have hI1 : MgrInv (⟨setElem s.dom i { domGet s.dom i with ariaHidden := false },
        s.mgr⟩ : St).mgr := hI
    obtain ⟨rt', s', hall, hI', hr⟩ :=
      unmanageAll_inv rootId rt.managedElements rt _ hI1
    rw [hall]
    exact ⟨s', rfl, hI', hr⟩

/-- `_manageElement` preserves the element-registry invariant and never
fails on an invariant state. -/
theorem manageElement_inv (rootId : Nat) (rt : InertRoot) (s : St) (elId : Nat)
    (hI : MgrInv s.mgr) :
    ∃ rt' s', InertRoot.manageElement rootId rt s elId = .ok (rt', s') ∧
      MgrInv s'.mgr ∧ s'.mgr.inertRoots = s.mgr.inertRoots := by
  obtain ⟨rec', s', hreg, hI', _, _, hroots, _⟩ := register_spec s elId rootId hI
  unfold InertRoot.manageElement
  rw [hreg]
  exact ⟨_, s', rfl, hI', hroots⟩

/-- The adoption loop over a sub-root's managed set preserves the
element-registry invariant.  (Unlike the other loops it can fail — on a
dangling record id — but on the modelled call paths the looked-up records
come from the invariant registry, so failure does not in fact occur; the
lemma covers any successful run.) -/
theorem manageSavedList_inv (rootId : Nat) (ids : List Nat) :
    ∀ (rt : InertRoot) (s : St) (rt' : InertRoot) (s' : St), MgrInv s.mgr →
    InertRoot.manageSavedList rootId rt s ids = .ok (rt', s') →
    MgrInv s'.mgr ∧ s'.mgr.inertRoots = s.mgr.inertRoots := by
  induction ids with
  | nil =>
    intro rt s rt' s' hI h
    unfold InertRoot.manageSavedList at h
    cases h
    exact ⟨hI, rfl⟩
  | cons i rest ih =>
    intro rt s rt' s' hI h
    unfold InertRoot.manageSavedList at h
    cases hlk : alookup s.mgr.managedElements i with
    | none =>
      rw [hlk] at h
      cases h
    | some rec =>
      rw [hlk] at h
      dsimp only at h
      cases hrel : rec.el with
      | none =>
        rw [hrel] at h
        cases h
      | some elId =>
        rw [hrel] at h
        dsimp only at h
        cases hme : InertRoot.manageElement rootId rt s elId with
        | error e =>
          rw [hme] at h
          cases h
        | ok p =>
          obtain ⟨rt1, s1⟩ := p
          obtain ⟨rt1', s1', hme', hI1, hr1⟩ := manageElement_inv rootId rt s elId hI
          rw [hme] at h hme'
          cases hme'
          obtain ⟨hI2, hr2⟩ := ih rt1 s1 rt' s' hI1 h
          exact ⟨hI2, hr2.trans hr1⟩

/-- Adoption preserves the element-registry invariant, given that the
`setInert` entry point it may call does. -/
theorem adoptInertRootGen_inv (cb : St → DTree → Except String St)
    (hcb : ∀ s t s', MgrInv s.mgr → cb s t = .ok s' → MgrInv s'.mgr)
    (rootId : Nat) (rt : InertRoot) (s : St) (t : DTree)
    (rt' : InertRoot) (s' : St) (hI : MgrInv s.mgr)
    (h : InertRoot.adoptInertRootGen cb rootId rt s t = .ok (rt', s')) :
    MgrInv s'.mgr := by
  unfold InertRoot.adoptInertRootGen at h
  dsimp only at h
  by_cases hreg : (alookup s.mgr.inertRoots t.rootId).isNone
  · rw [if_pos hreg] at h
    cases hact : cb s t with
    | error e =>
      rw [hact] at h
      cases h
    | ok s1 =>
      rw [hact] at h
      dsimp only at h
      have hI1 : MgrInv s1.mgr := hcb s t s1 hI hact
      cases hsub : alookup s1.mgr.inertRoots t.rootId with
      | none =>
        rw [hsub] at h
        cases h
      | some sub =>
        rw [hsub] at h
        exact (manageSavedList_inv rootId sub.managedElements rt s1 rt' s' hI1 h).1
  · rw [if_neg hreg] at h
    dsimp only at h
    cases hsub : alookup s.mgr.inertRoots t.rootId with
    | none =>
      rw [hsub] at h
      cases h
    | some sub =>
      rw [hsub] at h
      exact (manageSavedList_inv rootId sub.managedElements rt s rt' s' hI h).1

/-- `_visitNode` preserves the element-registry invariant, given that the
`setInert` entry point it may call (through adoption) does. -/
theorem visitNodeGen_inv (cb : St → DTree → Except String St)
    (hcb : ∀ s t s', MgrInv s.mgr → cb s t = .ok s' → MgrInv s'.mgr)
    (rootId : Nat) (rt : InertRoot) (s : St) (t : DTree)
    (rt' : InertRoot) (s' : St) (hI : MgrInv s.mgr)
    (h : InertRoot.visitNodeGen cb rootId rt s t = .ok (rt', s')) :
    MgrInv s'.mgr := by
  unfold InertRoot.visitNodeGen at h
  dsimp only at h
  by_cases hadopt : t.rootId ≠ rootId ∧ (domGet s.dom t.rootId).inertAttr
  · rw [if_pos hadopt] at h
    cases had : InertRoot.adoptInertRootGen cb rootId rt s t with
    | error e =>
      rw [had] at h
      cases h
    | ok p =>
      obtain ⟨rt1, s1⟩ := p
      rw [had] at h
      dsimp only at h
      have hI1 := adoptInertRootGen_inv cb hcb rootId rt s t rt1 s1 hI had
      by_cases hm : (domGet s1.dom t.rootId).matchesFocusable = true ∨
          (domGet s1.dom t.rootId).tabindexAttr.isSome = true
      · rw [if_pos hm] at h
        obtain ⟨rt2, s2, hme, hI2, _⟩ := manageElement_inv rootId rt1 s1 t.rootId hI1
        rw [hme] at h
        cases h
        exact hI2
      · rw [if_neg hm] at h
        cases h
        exact hI1
  · rw [if_neg hadopt] at h
    dsimp only at h
    by_cases hm : (domGet s.dom t.rootId).matchesFocusable = true ∨
        (domGet s.dom t.rootId).tabindexAttr.isSome = true
    · rw [if_pos hm] at h
      obtain ⟨rt2, s2, hme, hI2, _⟩ := manageElement_inv rootId rt s t.rootId hI
      rw [hme] at h
      cases h
      exact hI2
    · rw [if_neg hm] at h
      cases h
      exact hI

mutual

/-- The subtree walk preserves the element-registry invariant, given
that the `setInert` entry point reachable through adoption does. -/
theorem walkTreeGen_inv (cb : St → DTree → Except String St)
    (hcb : ∀ s t s', MgrInv s.mgr → cb s t = .ok s' → MgrInv s'.mgr)
    (rootId : Nat) (rt : InertRoot) (s : St) (t : DTree)
    (rt' : InertRoot) (s' : St) (hI : MgrInv s.mgr)
    (h : InertRoot.walkTreeGen cb rootId rt s t = .ok (rt', s')) :
    MgrInv s'.mgr := by
  cases t with
  | node i children =>
    unfold InertRoot.walkTreeGen at h
    cases hv : InertRoot.visitNodeGen cb rootId rt s (.node i children) with
    | error e =>
      rw [hv] at h
      cases h
    | ok p =>
      obtain ⟨rt1, s1⟩ := p
      rw [hv] at h
      dsimp only at h
      have hI1 := visitNodeGen_inv cb hcb rootId rt s (.node i children) rt1 s1 hI hv
      exact walkListGen_inv cb hcb rootId rt1 s1 children rt' s' hI1 h
termination_by sizeOf t

/-- The child-list walk preserves the element-registry invariant. -/
theorem walkListGen_inv (cb : St → DTree → Except String St)
    (hcb : ∀ s t s', MgrInv s.mgr → cb s t = .ok s' → MgrInv s'.mgr)
    (rootId : Nat) (rt : InertRoot) (s : St) (ts : List DTree)
    (rt' : InertRoot) (s' : St) (hI : MgrInv s.mgr)
    (h : InertRoot.walkListGen cb rootId rt s ts = .ok (rt', s')) :
    MgrInv s'.mgr := by
  cases ts with
  | nil =>
    unfold InertRoot.walkListGen at h
    cases h
    exact hI
  | cons t rest =>
    unfold InertRoot.walkListGen at h
    cases hw : InertRoot.walkTreeGen cb rootId rt s t with
    | error e =>
      rw [hw] at h
      cases h
    | ok p =>
      obtain ⟨rt1, s1⟩ := p
      rw [hw] at h
      dsimp only at h
      have hI1 := walkTreeGen_inv cb hcb rootId rt s t rt1 s1 hI hw
      exact walkListGen_inv cb hcb rootId rt1 s1 rest rt' s' hI1 h
termination_by sizeOf ts

end

/-- `InertManager.setInert` preserves the element-registry invariant, at
every fuel value, for both activation and deactivation. -/
theorem setInert_inv : ∀ (fuel : Nat) (s : St) (t : DTree) (b : Bool) (s' : St),
    MgrInv s.mgr → InertManager.setInert fuel s t b = .ok s' → MgrInv s'.mgr := by
  intro fuel
  induction fuel with
  | zero =>
    intro s t b s' hI h
    rw [InertManager.setInert] at h
    cases h
  | succ f ih =>
    intro s t b s' hI h
    rw [InertManager.setInert] at h
    cases b with
    | false =>
      rw [if_neg (by simp)] at h
      cases hlk : alookup s.mgr.inertRoots t.rootId with
      | none =>
        rw [hlk] at h
        cases h
        exact hI
      | some rt =>
        rw [hlk] at h
        dsimp only at h
        obtain ⟨s1, hdtor, hI1, _⟩ := destructorOp_inv t.rootId rt s hI
        rw [hdtor] at h
        dsimp only at h
        cases h
        exact hI1
    | true =>
      rw [if_pos rfl] at h
      by_cases hreg : (alookup s.mgr.inertRoots t.rootId).isSome
      · rw [if_pos hreg] at h
        cases h
        exact hI
      · rw [if_neg hreg] at h
        dsimp only at h
        cases hw : InertRoot.walkTreeGen
            (fun s' t' => InertManager.setInert f s' t' true)
            t.rootId ⟨some t.rootId, []⟩
            ⟨setElem s.dom t.rootId { domGet s.dom t.rootId with ariaHidden := true },
              s.mgr⟩ t with
        | error e =>
          rw [hw] at h
          cases h
        | ok p =>
          obtain ⟨rt2, s2⟩ := p
          rw [hw] at h
          dsimp only at h
          cases h
          exact walkTreeGen_inv _
            (fun sa ta sa' hIa ha => ih sa ta true sa' hIa ha)
            t.rootId ⟨some t.rootId, []⟩
            ⟨setElem s.dom t.rootId { domGet s.dom t.rootId with ariaHidden := true },
              s.mgr⟩ t rt2 s2 hI hw

/-- States reachable through the modelled public entry point: some
initial document with an empty manager (the manager's registries start
empty before its constructor scan, which itself proceeds through
`setInert`), followed by any sequence of successful `setInert` calls. -/
inductive Reachable : St → Prop where
  | init (d : Dom) : Reachable ⟨d, ⟨[], []⟩⟩
  | step (fuel : Nat) (s : St) (t : DTree) (b : Bool) (s' : St) :
      Reachable s → InertManager.setInert fuel s t b = .ok s' → Reachable s'

/-- Every reachable manager state satisfies the element-registry
invariant. -/
theorem reachable_mgrInv (s : St) (h : Reachable s) : MgrInv s.mgr := by
  induction h with
  | init d =>
    refine ⟨keysNodup_nil, fun elId rec hlk => ?_⟩
    simp [alookup] at hlk
  | step fuel s t b s' _ heq ih =>
    exact setInert_inv fuel s t b s' ih heq

/-! ### A concrete nested-roots scenario

Document: element 0 (plain container, outer root `A`) containing element
1 (plain container, inner root `B`) containing element 2 (a button:
matches the focusable selector, no `tabindex` attribute, initially
focused) and element 3 (a plain container made focusable only by an
explicit `tabindex="5"`). -/

def nestedDom : Dom :=
  [(0, { tabindexAttr := none, inertAttr := false, ariaHidden := false,
         focused := false, focusOverridden := false, matchesFocusable := false }),
   (1, { tabindexAttr := none, inertAttr := false, ariaHidden := false,
         focused := false, focusOverridden := false, matchesFocusable := false }),
   (2, { tabindexAttr := none, inertAttr := false, ariaHidden := false,
         focused := true, focusOverridden := false, matchesFocusable := true }),
   (3, { tabindexAttr := some 5, inertAttr := false, ariaHidden := false,
         focused := false, focusOverridden := false, matchesFocusable := false })]

def treeB : DTree := .node 1 [.node 2 [], .node 3 []]

def treeA : DTree := .node 0 [treeB]

def nestedS0 : St := ⟨nestedDom, ⟨[], []⟩⟩

/-- Decidable equality for `Except` results, needed to evaluate concrete
runs of the embedded operations. -/
instance exceptDecEq {eps : Type} {α : Type} [DecidableEq eps] [DecidableEq α] :
    DecidableEq (Except eps α) := fun x y =>
  match x, y with
  | .error a, .error b =>
    if h : a = b then isTrue (h ▸ rfl) else isFalse fun hc => h (Except.error.inj hc)
  | .error _, .ok _ => isFalse fun hc => Except.noConfusion hc
  | .ok _, .error _ => isFalse fun hc => Except.noConfusion hc
  | .ok a, .ok b =>
    if h : a = b then isTrue (h ▸ rfl) else isFalse fun hc => h (Except.ok.inj hc)

/-- Shorthand for element-state literals:
tabindex attribute, inert, aria-hidden, focused, focus-overridden,
matches-focusable. -/
def mkEl (ti : Option Int) (ia ah f fo m : Bool) : ElemState :=
  ⟨ti, ia, ah, f, fo, m⟩

/-- State after activating the inner root `B`. -/
def nestedSB : St :=
  ⟨[(0, mkEl none false false false false false),
    (1, mkEl none true true false false false),
    (2, mkEl (some (-1)) false false false true true),
    (3, mkEl none false false false false false)],
   ⟨[(1, ⟨some 1, [2, 3]⟩)],
    [(2, ⟨some 2, true, [1], false, none⟩),
     (3, ⟨some 3, false, [1], false, some 5⟩)]⟩⟩

/-- State after additionally activating the outer root `A` (which adopts
`B`'s managed records and claims them). -/
def nestedSAB : St :=
  ⟨[(0, mkEl none true true false false false),
    (1, mkEl none true true false false false),
    (2, mkEl (some (-1)) false false false true true),
    (3, mkEl none false false false false false)],
   ⟨[(1, ⟨some 1, [2, 3]⟩), (0, ⟨some 0, [2, 3]⟩)],
    [(2, ⟨some 2, true, [1, 0], false, some (-1)⟩),
     (3, ⟨some 3, false, [1, 0], false, some 5⟩)]⟩⟩

/-- State after then deactivating the inner root `B`: the records
survive, claimed by `A` alone. -/
def nestedSA : St :=
  ⟨[(0, mkEl none true true false false false),
    (1, mkEl none false false false false false),
    (2, mkEl (some (-1)) false false false true true),
    (3, mkEl none false false false false false)],
   ⟨[(0, ⟨some 0, [2, 3]⟩)],
    [(2, ⟨some 2, true, [0], false, some (-1)⟩),
     (3, ⟨some 3, false, [0], false, some 5⟩)]⟩⟩

/-- State after finally deactivating the outer root `A`: all records
destroyed; element 3's `tabindex="5"` is restored exactly, while the
button (element 2) is left with the leaked sentinel `tabindex="-1"`
saved during the second `ensureUntabbable`. -/
def nestedSNone : St :=
  ⟨[(0, mkEl none false false false false false),
    (1, mkEl none false false false false false),
    (2, mkEl (some (-1)) false false false false true),
    (3, mkEl (some 5) false false false false false)],
   ⟨[], []⟩⟩

/-- State after re-activating `B` from `nestedSA` instead (element 3,
left with no `tabindex` attribute and not matching the focusable
selector, is invisible to the fresh walk, so the new `B` claims only the
button). -/
def nestedSAB2 : St :=
  ⟨[(0, mkEl none true true false false false),
    (1, mkEl none true true false false false),
    (2, mkEl (some (-1)) false false false true true),
    (3, mkEl none false false false false false)],
   ⟨[(0, ⟨some 0, [2, 3]⟩), (1, ⟨some 1, [2]⟩)],
    [(2, ⟨some 2, true, [0, 1], false, some (-1)⟩),
     (3, ⟨some 3, false, [0], false, some 5⟩)]⟩⟩

/-- State after deactivating `A` from `nestedSAB2`: the button's record
stays alive because the re-activated `B` still claims it. -/
def nestedSB2 : St :=
  ⟨[(0, mkEl none false false false false false),
    (1, mkEl none true true false false false),
    (2, mkEl (some (-1)) false false false true true),
    (3, mkEl (some 5) false false false false false)],
   ⟨[(1, ⟨some 1, [2]⟩)],
    [(2, ⟨some 2, true, [1], false, some (-1)⟩)]⟩⟩

set_option maxHeartbeats 2000000 in
theorem nestedStepB :
    InertManager.setInert 5 nestedS0 treeB true = .ok nestedSB := by decide

set_option maxHeartbeats 2000000 in
theorem nestedStepAB :
    InertManager.setInert 5 nestedSB treeA true = .ok nestedSAB := by decide

set_option maxHeartbeats 2000000 in
theorem nestedStepA :
    InertManager.setInert 5 nestedSAB treeB false = .ok nestedSA := by decide

set_option maxHeartbeats 2000000 in
theorem nestedStepNone :
    InertManager.setInert 5 nestedSA treeA false = .ok nestedSNone := by decide

set_option maxHeartbeats 2000000 in
theorem nestedStepAB2 :
    InertManager.setInert 5 nestedSA treeB true = .ok nestedSAB2 := by decide

set_option maxHeartbeats 2000000 in
theorem nestedStepB2 :
    InertManager.setInert 5 nestedSAB2 treeA false = .ok nestedSB2 := by decide

/-- The state with the inner root active is reachable. -/
theorem nestedSB_reachable : Reachable nestedSB :=
  Reachable.step 5 nestedS0 treeB true nestedSB
    (Reachable.init nestedDom) nestedStepB

/-! ### Claim theorems -/

/-- C3: `setInert` is idempotent — activating a root already present in
the manager's root registry, or deactivating one that is absent, returns
with the entire state (registries, every element's attributes, every
record) unchanged. -/
theorem setInert_idempotent (fuel : Nat) (s : St) (t : DTree) :
    ((alookup s.mgr.inertRoots t.rootId).isSome →
      InertManager.setInert (fuel + 1) s t true = .ok s) ∧
    (alookup s.mgr.inertRoots t.rootId = none →
      InertManager.setInert (fuel + 1) s t false = .ok s) := by
  constructor
  · intro h
    rw [InertManager.setInert, if_pos rfl, if_pos h]
  · intro h
    rw [InertManager.setInert, if_neg (by simp), h]

/-- C3 witness: root 1 is active in `nestedSB`, root 0 is not; both
no-op directions evaluated there. -/
theorem setInert_idempotent_witness :
    InertManager.setInert 5 nestedSB treeB true = .ok nestedSB ∧
    InertManager.setInert 5 nestedSB treeA false = .ok nestedSB :=
  ⟨(setInert_idempotent 4 nestedSB treeB).1 (by decide),
   (setInert_idempotent 4 nestedSB treeA).2 (by decide)⟩

/-- C7: the `deregister` contract on any reachable state — an element
with no record yields a no-op returning nothing; an element with a
record has the root removed from the record's claimant set, the record
is dropped from the element map exactly when it became destroyed, other
map entries are untouched, and the record is returned in both cases. -/
theorem deregister_contract (s : St) (elId rootId : Nat) (hs : Reachable s) :
    (alookup s.mgr.managedElements elId = none →
      InertManager.deregister s elId rootId = .ok (none, s)) ∧
    (∀ rec, alookup s.mgr.managedElements elId = some rec →
      ∃ rec' s', InertManager.deregister s elId rootId = .ok (some rec', s') ∧
        rec'.inertRoots = rec.inertRoots.erase rootId ∧
        (rec'.destroyed = true ↔ rec.inertRoots.erase rootId = []) ∧
        alookup s'.mgr.managedElements elId =
          (if rec'.destroyed then none else some rec') ∧
        (∀ j, j ≠ elId → alookup s'.mgr.managedElements j =
          alookup s.mgr.managedElements j)) := by
  have hI := reachable_mgrInv s hs
  obtain ⟨h1, h2⟩ := deregister_spec s elId rootId hI
  refine ⟨h1, fun rec hr => ?_⟩
  obtain ⟨rec', s', a, b, c, d, e, _, _⟩ := h2 rec hr
  exact ⟨rec', s', a, b, c, d, e⟩

/-- C7 witness: in `nestedSB`, element 7 has no record (no-op branch,
via the theorem) and element 2's record, claimed only by root 1, is
destroyed and dropped when root 1 deregisters it (evaluated run). -/
theorem deregister_contract_witness :
    InertManager.deregister nestedSB 7 1 = .ok (none, nestedSB) ∧
    (InertManager.deregister nestedSB 2 1).map
      (fun p => (p.1, alookup p.2.mgr.managedElements 2)) =
      .ok (some ⟨none, true, [], true, none⟩, none) :=
  ⟨(deregister_contract nestedSB 7 1 nestedSB_reachable).1 (by decide),
   by decide⟩

/-- C4 (code bug): destroying a record twice does signal the
use-after-destroy error, as do reading and writing the saved focus-order
value; but reading the managed-element reference does not — the source's
`element` getter (inert.js line 298) contains `this._throwIfDestroyed;`
without an invocation, so it silently returns the deleted `_element`
(i.e. `undefined`) instead of signalling, contradicting the claim and
the getter's own documentation (lines 279-281). -/
theorem use_after_destroy_element_getter_no_error :
    (InertElement.destructor ⟨some 7, true, [4], false, some 3⟩
        [(7, mkEl (some (-1)) false false false true true)]).map Prod.fst =
      .ok ⟨none, true, [], true, some 3⟩ ∧
    InertElement.destructor ⟨none, true, [], true, some 3⟩
        [(7, mkEl (some 3) false false false false true)] =
      .error "Trying to access destroyed InertElement" ∧
    InertElement.savedTabIndexGet ⟨none, true, [], true, some 3⟩ =
      .error "Trying to access destroyed InertElement" ∧
    InertElement.savedTabIndexSet ⟨none, true, [], true, some 3⟩ 0 =
      .error "Trying to access destroyed InertElement" ∧
    InertElement.elementGet ⟨none, true, [], true, some 3⟩ = .ok none := by
  refine ⟨by decide, by decide, by decide, by decide, by decide⟩

/-- C5 (code bug): `ensureUntabbable` is not idempotent in the case the
claim singles out.  For a record over an element that matches the
focusable selector and had no `tabindex` attribute, the first invocation
installs the sentinel and saves nothing; the second invocation sees the
sentinel with nothing stored, falls through the
`tabIndex === -1 && hasSavedTabIndex` guard, and records the polyfill's
own sentinel `-1` as the saved value — changed record state, and the
destructor then restores `tabindex="-1"` instead of removing the
attribute. -/
theorem ensureUntabbable_second_call_records_sentinel :
    InertElement.construct 7 1 [(7, mkEl none false false false false true)] =
      .ok (⟨some 7, true, [1], false, none⟩,
           [(7, mkEl (some (-1)) false false false true true)]) ∧
    (⟨some 7, true, [1], false, none⟩ : InertElement).hasSavedTabIndex = false ∧
    InertElement.ensureUntabbable ⟨some 7, true, [1], false, none⟩
        [(7, mkEl (some (-1)) false false false true true)] =
      .ok (⟨some 7, true, [1], false, some (-1)⟩,
           [(7, mkEl (some (-1)) false false false true true)]) ∧
    (⟨some 7, true, [1], false, some (-1)⟩ : InertElement) ≠
      ⟨some 7, true, [1], false, none⟩ ∧
    (InertElement.destructor ⟨some 7, true, [1], false, some (-1)⟩
        [(7, mkEl (some (-1)) false false false true true)]).map
      (fun p => (domGet p.2 7).tabindexAttr) = .ok (some (-1)) := by
  refine ⟨by decide, by decide, by decide, by decide, by decide⟩

/-- A one-root scenario tree for the saved value `0`: element 9 (plain
container, the root) over element 8, a plain container with explicit
`tabindex="0"`. -/
def zeroTree : DTree := .node 9 [.node 8 []]

/-- Initial state of the one-root scenario. -/
def zeroS0 : St :=
  ⟨[(9, mkEl none false false false false false),
    (8, mkEl (some 0) false false false false false)],
   ⟨[], []⟩⟩

/-- `zeroS0` with the root active: element 8's attribute is removed
(non-matching element), the value `0` saved in its record. -/
def zeroSInert : St :=
  ⟨[(9, mkEl none true true false false false),
    (8, mkEl none false false false false false)],
   ⟨[(9, ⟨some 9, [8]⟩)], [(8, ⟨some 8, false, [9], false, some 0⟩)]⟩⟩

/-- `zeroSInert` after deactivation: `tabindex="0"` restored exactly. -/
def zeroSAfter : St :=
  ⟨[(9, mkEl none false false false false false),
    (8, mkEl (some 0) false false false false false)],
   ⟨[], []⟩⟩

/-- C1 (code bug): the round trip does restore a pre-existing explicit
focus-order value exactly (element 3's `tabindex="5"` comes back
verbatim), but an element with no prior `tabindex` attribute does not
always end with no attribute: when a second inert root claims the button
(element 2), the re-run `ensureUntabbable` saves the polyfill's own
sentinel, so after the last claiming root deregisters it the button is
left with `tabindex="-1"` instead of no attribute — contradicting the
claim and the destructor's stated purpose (inert.js lines 256-258).
The saved value `0` is restored exactly, not removed, as the claim
requires (single-root round trip over element 8). -/
theorem roundtrip_restoration_fails_on_second_claim :
    (domGet nestedS0.dom 2).tabindexAttr = none ∧
    (domGet nestedS0.dom 3).tabindexAttr = some 5 ∧
    InertManager.setInert 5 nestedS0 treeB true = .ok nestedSB ∧
    InertManager.setInert 5 nestedSB treeA true = .ok nestedSAB ∧
    InertManager.setInert 5 nestedSAB treeB false = .ok nestedSA ∧
    InertManager.setInert 5 nestedSA treeA false = .ok nestedSNone ∧
    alookup nestedSNone.mgr.managedElements 2 = none ∧
    alookup nestedSNone.mgr.managedElements 3 = none ∧
    (domGet nestedSNone.dom 3).tabindexAttr = some 5 ∧
    (domGet nestedSNone.dom 2).tabindexAttr = some (-1) ∧
    (domGet zeroS0.dom 8).tabindexAttr = some 0 ∧
    InertManager.setInert 5 zeroS0 zeroTree true = .ok zeroSInert ∧
    (domGet zeroSInert.dom 8).tabindexAttr = none ∧
    InertManager.setInert 5 zeroSInert zeroTree false = .ok zeroSAfter ∧
    (domGet zeroSAfter.dom 8).tabindexAttr = some 0 :=
  ⟨by decide, by decide, nestedStepB, nestedStepAB, nestedStepA,
   nestedStepNone, by decide, by decide, by decide, by decide,
   by decide, by decide, by decide, by decide, by decide⟩

/-- C2: nesting via claimant counting.  First the general record-level
fact, over every reachable state: when a record is claimed by two
distinct roots `a` and `b`, deregistering it from `b` succeeds and any
returned record is still alive, still claimed by `a`, and still interned
— deactivating one root cannot free an element another root claims.
Then the canonical nested scenario (outer root 0 over inner root 1 over
focusable elements 2 and 3): after activating the inner then the outer
root, each record is claimed by both roots (the outer root adopted the
inner one); deactivating the inner root alone leaves the records alive,
claimed by the outer root, the button still untabbable (`tabindex="-1"`,
programmatic focus a no-op); deactivating the outer root then destroys
the records — the restore step runs, giving the button its native focus
method back and element 3 its `tabindex="5"` — whereas if the inner root
is re-activated first, the button's record survives the outer root's
deactivation, still claimed by the inner root. -/
theorem nested_roots_claimant_counting :
    (∀ (s : St) (x a b : Nat), Reachable s → a ≠ b →
      ∀ rec, alookup s.mgr.managedElements x = some rec →
      a ∈ rec.inertRoots → b ∈ rec.inertRoots →
      (InertManager.deregister s x b).toOption.isSome = true ∧
      (∀ (rec' : InertElement) (s' : St),
        InertManager.deregister s x b = .ok (some rec', s') →
        rec'.destroyed = false ∧ a ∈ rec'.inertRoots ∧
        alookup s'.mgr.managedElements x = some rec')) ∧
    (InertManager.setInert 5 nestedS0 treeB true = .ok nestedSB ∧
     InertManager.setInert 5 nestedSB treeA true = .ok nestedSAB ∧
     alookup nestedSAB.mgr.managedElements 2 =
       some ⟨some 2, true, [1, 0], false, some (-1)⟩ ∧
     alookup nestedSAB.mgr.managedElements 3 =
       some ⟨some 3, false, [1, 0], false, some 5⟩ ∧
     InertManager.setInert 5 nestedSAB treeB false = .ok nestedSA ∧
     alookup nestedSA.mgr.managedElements 2 =
       some ⟨some 2, true, [0], false, some (-1)⟩ ∧
     alookup nestedSA.mgr.managedElements 3 =
       some ⟨some 3, false, [0], false, some 5⟩ ∧
     (domGet nestedSA.dom 2).tabindexAttr = some (-1) ∧
     (domGet nestedSA.dom 2).callFocus = domGet nestedSA.dom 2 ∧
     InertManager.setInert 5 nestedSA treeA false = .ok nestedSNone ∧
     alookup nestedSNone.mgr.managedElements 2 = none ∧
     alookup nestedSNone.mgr.managedElements 3 = none ∧
     (domGet nestedSNone.dom 2).focusOverridden = false ∧
     (domGet nestedSNone.dom 3).tabindexAttr = some 5 ∧
     InertManager.setInert 5 nestedSA treeB true = .ok nestedSAB2 ∧
     InertManager.setInert 5 nestedSAB2 treeA false = .ok nestedSB2 ∧
     alookup nestedSB2.mgr.managedElements 2 =
       some ⟨some 2, true, [1], false, some (-1)⟩ ∧
     (domGet nestedSB2.dom 2).tabindexAttr = some (-1)) := by
  constructor
  · intro s x a b hs hab rec hlk ha hb
    obtain ⟨_, h2⟩ := deregister_spec s x b (reachable_mgrInv s hs)
    obtain ⟨rec', s', heq, hroots', hdiff, hlk', _, _, _⟩ := h2 rec hlk
    have hmem : a ∈ rec.inertRoots.erase b :=
      (List.mem_erase_of_ne hab).mpr ha
    have hne : rec.inertRoots.erase b ≠ [] := by
      intro hc
      rw [hc] at hmem
      cases hmem
    have hdes : rec'.destroyed = false := by
      cases hd : rec'.destroyed with
      | true => exact absurd (hdiff.mp hd) hne
      | false => rfl
    constructor
    · rw [heq]
      rfl
    · intro rec'' s'' h''
      rw [heq] at h''
      simp only [Except.ok.injEq, Prod.mk.injEq, Option.some.injEq] at h''
      obtain ⟨hr, hsx⟩ := h''
      subst hr
      subst hsx
      refine ⟨hdes, ?_, ?_⟩
      · rw [hroots']
        exact hmem
      · rw [hlk', hdes]
        simp
  · exact ⟨nestedStepB, nestedStepAB, by decide, by decide, nestedStepA,
      by decide, by decide, by decide, by decide, nestedStepNone,
      by decide, by decide, by decide, by decide, nestedStepAB2,
      nestedStepB2, by decide, by decide⟩

/-- The state with both roots active is reachable. -/
theorem nestedSAB_reachable : Reachable nestedSAB :=
  Reachable.step 5 nestedSB treeA true nestedSAB
    nestedSB_reachable nestedStepAB

/-- `nestedSAB` after the inner root deregisters the button: the record
survives with the outer root as sole claimant. -/
def nestedSABminus : St :=
  ⟨[(0, mkEl none true true false false false),
    (1, mkEl none true true false false false),
    (2, mkEl (some (-1)) false false false true true),
    (3, mkEl none false false false false false)],
   ⟨[(1, ⟨some 1, [2, 3]⟩), (0, ⟨some 0, [2, 3]⟩)],
    [(2, ⟨some 2, true, [0], false, some (-1)⟩),
     (3, ⟨some 3, false, [1, 0], false, some 5⟩)]⟩⟩

/-- C2 witness: the general claimant-counting fact applied in
`nestedSAB` to the button (claimed by roots 0 and 1) with root 1
deregistering. -/
theorem nested_roots_claimant_counting_witness :
    (InertManager.deregister nestedSAB 2 1).toOption.isSome = true ∧
    (⟨some 2, true, [0], false, some (-1)⟩ : InertElement).destroyed = false ∧
    0 ∈ (⟨some 2, true, [0], false, some (-1)⟩ : InertElement).inertRoots ∧
    alookup nestedSABminus.mgr.managedElements 2 =
      some ⟨some 2, true, [0], false, some (-1)⟩ := by
  have h := nested_roots_claimant_counting.1 nestedSAB 2 0 1
    nestedSAB_reachable (by decide)
    ⟨some 2, true, [1, 0], false, some (-1)⟩ (by decide) (by decide) (by decide)
  obtain ⟨h1, h2⟩ := h
  obtain ⟨ha, hb, hc⟩ := h2 ⟨some 2, true, [0], false, some (-1)⟩
    nestedSABminus (by decide)
  exact ⟨h1, ha, hb, hc⟩

/-- C6: interning and liveness — on every reachable state the manager's
element map has pairwise-distinct keys (at most one record per element)
and every interned record is alive, claimed by at least one inert root,
and references its own key; and `register` on an element that already
has a record returns that record extended with the new claimant (adding
the root to the existing claimant set) rather than constructing a second
record, re-interning it under the same single key. -/
theorem manager_interning_liveness_invariant :
    (∀ s : St, Reachable s →
      KeysNodup s.mgr.managedElements ∧
      ∀ elId rec, alookup s.mgr.managedElements elId = some rec →
        rec.destroyed = false ∧ rec.inertRoots ≠ [] ∧ rec.el = some elId) ∧
    (∀ (s : St) (elId rootId : Nat), Reachable s →
      ∀ rec, alookup s.mgr.managedElements elId = some rec →
      ∃ rec' s', InertManager.register s elId rootId = .ok (rec', s') ∧
        rec'.inertRoots = setAdd rec.inertRoots rootId ∧
        rec'.el = some elId ∧
        alookup s'.mgr.managedElements elId = some rec' ∧
        (∀ j, j ≠ elId → alookup s'.mgr.managedElements j =
          alookup s.mgr.managedElements j)) := by
  constructor
  · intro s hs
    exact reachable_mgrInv s hs
  · intro s elId rootId hs rec hlk
    obtain ⟨rec', s', hreg, _, hself, hother, _, helr, _, _, _, hins, _⟩ :=
      register_spec s elId rootId (reachable_mgrInv s hs)
    exact ⟨rec', s', hreg, hins rec hlk, helr, hself, hother⟩

/-- C6 witness: the invariant instantiated on the reachable state with
the inner root active. -/
theorem manager_interning_liveness_invariant_witness :
    KeysNodup nestedSB.mgr.managedElements ∧
    (⟨some 2, true, [1], false, none⟩ : InertElement).destroyed = false :=
  ⟨(manager_interning_liveness_invariant.1 nestedSB nestedSB_reachable).1,
   ((manager_interning_liveness_invariant.1 nestedSB nestedSB_reachable).2
      2 ⟨some 2, true, [1], false, none⟩ (by decide)).1⟩

/-- C8 counterexample: `destroyed` is not the one property exempt from
the use-after-destroy error. After a record is destroyed,
`hasSavedTabIndex` (whose getter performs no destroyed check) and
`element` (whose getter fails to invoke `_throwIfDestroyed`) are also
read back without any error being signalled. -/
theorem destroyed_not_only_exempt_property :
    (InertElement.destructor ⟨some 7, true, [4], false, some 3⟩
        [(7, mkEl (some (-1)) false false false true true)]).map
      (fun p => (p.1.destroyed, InertElement.hasSavedTabIndexGet p.1,
                 InertElement.elementGet p.1)) =
      .ok (true, .ok true, .ok none) := by
  decide

/-- C8 (amended): the `destroyed` getter is readable without error on
every record, destroyed or not, and `deregister` depends on inspecting
it on the possibly-just-destroyed record it returns — dropping the
record from the element map exactly when the flag reads true.  (It is
not, however, the only property exempt from the use-after-destroy
error: `hasSavedTabIndex` and — through a missing invocation — `element`
are also exempt; see the counterexample.) -/
theorem destroyed_getter_total_deregister_inspects :
    (∀ r : InertElement, InertElement.destroyedGet r = .ok r.destroyed) ∧
    (∀ (s : St) (elId rootId : Nat) (rec' : InertElement) (s' : St),
      InertManager.deregister s elId rootId = .ok (some rec', s') →
      (rec'.destroyed = true → alookup s'.mgr.managedElements elId = none) ∧
      (rec'.destroyed = false →
        alookup s'.mgr.managedElements elId = some rec')) := by
  refine ⟨fun r => rfl, ?_⟩
  intro s elId rootId rec' s' h
  unfold InertManager.deregister at h
  cases hlk : alookup s.mgr.managedElements elId with
  | none =>
    rw [hlk] at h
    simp at h
  | some rec =>
    rw [hlk] at h
    dsimp only at h
    cases hrm : rec.removeInertRoot s.dom rootId with
    | error e =>
      rw [hrm] at h
      cases h
    | ok p =>
      obtain ⟨r1, d1⟩ := p
      rw [hrm] at h
      dsimp only at h
      simp only [Except.ok.injEq, Prod.mk.injEq, Option.some.injEq] at h
      obtain ⟨hr, hs⟩ := h
      subst hr
      subst hs
      constructor
      · intro hd
        simp only [hd, if_true]
        exact alookup_aremove_self _ _
      · intro hd
        simp only [hd, Bool.false_eq_true, if_false]
        exact alookup_aset_self _ _ _

/-- The state reached from `nestedSB` when the inner root deregisters
the button: the button's record (solely claimed by root 1) is destroyed
and dropped from the element registry. -/
def nestedSBminus : St :=
  ⟨[(0, mkEl none false false false false false),
    (1, mkEl none true true false false false),
    (2, mkEl none false false false false true),
    (3, mkEl none false false false false false)],
   ⟨[(1, ⟨some 1, [2, 3]⟩)], [(3, ⟨some 3, false, [1], false, some 5⟩)]⟩⟩

/-- C8 witness: the `destroyed` getter evaluated on a destroyed record,
and the deregister run in `nestedSB` that destroys element 2's record
(the inner root was its only claimant), whose registry entry is gone
afterwards — via the theorem. -/
theorem destroyed_getter_total_deregister_inspects_witness :
    InertElement.destroyedGet ⟨none, true, [], true, none⟩ = .ok true ∧
    InertManager.deregister nestedSB 2 1 =
      .ok (some ⟨none, true, [], true, none⟩, nestedSBminus) ∧
    alookup nestedSBminus.mgr.managedElements 2 = none :=
  ⟨(destroyed_getter_total_deregister_inspects.1 ⟨none, true, [], true, none⟩),
   by decide,
   ((destroyed_getter_total_deregister_inspects.2 nestedSB 2 1
      ⟨none, true, [], true, none⟩ nestedSBminus (by decide)).1 rfl)⟩

/-- C9: every successful invocation of `ensureUntabbable` leaves the
element without keyboard focus (it calls `element.blur()` first), and
consequently every registration — first construction or re-registration
by an additional root — blurs the element, even along the early-return
path that changes no attribute. -/
theorem ensureUntabbable_always_blurs :
    (∀ (r : InertElement) (d : Dom) (i : Nat) (r' : InertElement) (d' : Dom),
      r.el = some i → r.ensureUntabbable d = .ok (r', d') →
      (domGet d' i).focused = false) ∧
    (∀ (s : St) (elId rootId : Nat), Reachable s →
      ∃ rec' s', InertManager.register s elId rootId = .ok (rec', s') ∧
        (domGet s'.dom elId).focused = false) := by
  constructor
  · exact fun r d i r' d' hel h => ensureUntabbable_ok_blurred r d i r' d' hel h
  · intro s elId rootId hs
    obtain ⟨rec', s', hreg, _, _, _, _, _, _, _, hfoc, _, _⟩ :=
      register_spec s elId rootId (reachable_mgrInv s hs)
    exact ⟨rec', s', hreg, hfoc⟩

/-- C9 witness: a focused element already carrying the sentinel with a
saved value — the early-return branch, which changes no attribute —
loses focus, via the theorem; plus the register branch on a reachable
state. -/
theorem ensureUntabbable_always_blurs_witness :
    InertElement.ensureUntabbable ⟨some 7, true, [1], false, some (-1)⟩
        [(7, mkEl (some (-1)) false false true true true)] =
      .ok (⟨some 7, true, [1], false, some (-1)⟩,
           [(7, mkEl (some (-1)) false false false true true)]) ∧
    (domGet [(7, mkEl (some (-1)) false false false true true)] 7).focused = false ∧
    (domGet [(7, mkEl (some (-1)) false false false true true)] 7).tabindexAttr =
      some (-1) :=
  ⟨by decide,
   ensureUntabbable_always_blurs.1 ⟨some 7, true, [1], false, some (-1)⟩
     [(7, mkEl (some (-1)) false false true true true)] 7
     ⟨some 7, true, [1], false, some (-1)⟩
     [(7, mkEl (some (-1)) false false false true true)] rfl (by decide),
   by decide⟩

/-- C10: for an element matching the focusable selector, constructing a
record (which makes it untabbable) replaces the element's `focus` method
with a no-op and remembers having done so; the destructor removes the
override exactly when the record installed it, after which a programmatic
focus call reaches the native method again. -/
theorem focus_override_install_and_restore :
    (∀ (elId rootId : Nat) (d : Dom) (r' : InertElement) (d' : Dom),
      (domGet d elId).matchesFocusable = true →
      InertElement.construct elId rootId d = .ok (r', d') →
      r'.overrodeFocusMethod = true ∧
      (domGet d' elId).focusOverridden = true ∧
      (domGet d' elId).callFocus = domGet d' elId) ∧
    (∀ (r : InertElement) (d : Dom) (i : Nat) (r' : InertElement) (d' : Dom),
      r.destroyed = false → r.el = some i →
      r.destructor d = .ok (r', d') →
      (domGet d' i).focusOverridden =
        (if r.overrodeFocusMethod then false else (domGet d i).focusOverridden) ∧
      (r.overrodeFocusMethod = true →
        ((domGet d' i).callFocus).focused = true)) := by
  constructor
  · intro elId rootId d r' d' hm h
    unfold InertElement.construct InertElement.ensureUntabbable
      InertElement.mkRecord at h
    dsimp only at h
    have hm' : ((domGet d elId).blur).matchesFocusable = true := by
      simpa [ElemState.blur] using hm
    split_ifs at h with h1 h2
    · exfalso
      simp [InertElement.hasSavedTabIndex] at h1
    · simp only [Except.ok.injEq, Prod.mk.injEq] at h
      obtain ⟨hr, hd⟩ := h
      subst hr
      subst hd
      refine ⟨rfl, ?_, ?_⟩
      · rw [domGet_setElem_self]
      · rw [domGet_setElem_self]
        simp [ElemState.callFocus]
    · simp only [Except.ok.injEq, Prod.mk.injEq] at h
      obtain ⟨hr, hd⟩ := h
      subst hr
      subst hd
      refine ⟨rfl, ?_, ?_⟩
      · rw [domGet_setElem_self]
      · rw [domGet_setElem_self]
        simp [ElemState.callFocus]
  · intro r d i r' d' hdes hel h
    unfold InertElement.destructor InertElement.throwIfDestroyed at h
    rw [hdes] at h
    simp only [Bool.false_eq_true, if_false] at h
    rw [hel] at h
    dsimp only at h
    simp only [Except.ok.injEq, Prod.mk.injEq] at h
    obtain ⟨hr, hd⟩ := h
    subst hd
    cases hov : r.overrodeFocusMethod with
    | true =>
      rw [hov] at hr
      simp only [if_true] at hr ⊢
      cases hsv : r.savedTabIndex <;>
        (rw [hsv] at hr
         rw [domGet_setElem_self]
         simp [ElemState.callFocus])
    | false =>
      rw [hov] at hr
      simp only [Bool.false_eq_true, if_false] at hr ⊢
      refine ⟨?_, fun hc => by cases hc⟩
      cases hsv : r.savedTabIndex <;>
        (rw [hsv] at hr
         rw [domGet_setElem_self])

/-- C10 witness: construction over a matching element installs the no-op
override (via the theorem); the destructor on a record that installed it
removes it, and a focus call then succeeds. -/
theorem focus_override_install_and_restore_witness :
    InertElement.construct 7 1 [(7, mkEl none false false false false true)] =
      .ok (⟨some 7, true, [1], false, none⟩,
           [(7, mkEl (some (-1)) false false false true true)]) ∧
    (⟨some 7, true, [1], false, none⟩ : InertElement).overrodeFocusMethod = true ∧
    (domGet [(7, mkEl (some (-1)) false false false true true)] 7).callFocus =
      domGet [(7, mkEl (some (-1)) false false false true true)] 7 ∧
    (InertElement.destructor ⟨some 7, true, [1], false, none⟩
        [(7, mkEl (some (-1)) false false false true true)]).map
      (fun p => ((domGet p.2 7).focusOverridden,
                 ((domGet p.2 7).callFocus).focused)) = .ok (false, true) :=
  ⟨by decide,
   (focus_override_install_and_restore.1 7 1
      [(7, mkEl none false false false false true)]
      ⟨some 7, true, [1], false, none⟩
      [(7, mkEl (some (-1)) false false false true true)]
      (by decide) (by decide)).1,
   (focus_override_install_and_restore.1 7 1
      [(7, mkEl none false false false false true)]
      ⟨some 7, true, [1], false, none⟩
      [(7, mkEl (some (-1)) false false false true true)]
      (by decide) (by decide)).2.2,
   by decide⟩
